import Mathlib

/-!
Verification of the crucible compiler front end (lexer, parser, IR lowering,
optimizer) against its natural-language specification.

The Rust sources are shallowly embedded: Rust `String` becomes `List Char`
(`Str`), Rust `i64` becomes `Int` with explicit two's-complement wrapping
where an operation can overflow, Rust `HashMap` becomes an association list
(only `insert`/`get`/`entry` are used, for which the association list is
observationally equivalent), and a Rust `panic!`/`unwrap` failure or a
`match` without an arm for the scrutinee is modelled as `Option.none`.
Recursive procedures whose Rust termination argument is "the cursor/input
shrinks" carry an explicit fuel argument; the fuel chosen at the wrapper is
always sufficient (for the optimizer loop this is proved below).
String literals in error messages elide the source's decorative quote marks
around token names; no theorem depends on a parser message text.
-/

namespace Crucible

/-- Rust `String` / `&str`, embedded as its character sequence. -/
abbrev Str := List Char

/-! ### Character classes

ASCII fragments of the Rust `char` classification methods used by the lexer
(`is_whitespace`, `is_alphabetic`, `is_alphanumeric`, `is_digit(10)`).
The Unicode extensions of these classes are never exercised by the claims;
`is_digit(10)` is exactly ASCII in Rust as well. -/

/-- Rust `ch.is_whitespace()` on ASCII: space, tab, LF, VT, FF, CR. -/
def isWhitespaceC (c : Char) : Bool := c.toNat == 32 || (9 ≤ c.toNat && c.toNat ≤ 13)

/-- Rust `ch.is_alphabetic()` on ASCII: letters. -/
def isAlphabeticC (c : Char) : Bool :=
  (65 ≤ c.toNat && c.toNat ≤ 90) || (97 ≤ c.toNat && c.toNat ≤ 122)

/-- Rust `ch.is_digit(10)`: ASCII decimal digits. -/
def isDigitC (c : Char) : Bool := 48 ≤ c.toNat && c.toNat ≤ 57

/-- Continuation class of an identifier run: `ch.is_alphanumeric() || ch == '_'`. -/
def isIdentContC (c : Char) : Bool := isAlphabeticC c || isDigitC c || c == '_'

/-! ### Decimal text and `i64` parsing -/

/-- Value of a digit string read most-significant first
(the accumulator loop of an integer parser). -/
def digitsToNat (ds : Str) : Nat := ds.foldl (fun a c => 10 * a + (c.toNat - 48)) 0

/-- `i64::MAX`. -/
def I64MAX : Nat := 2 ^ 63 - 1

/-- Digits of `n`, most significant first, prepended to `acc`.
The fuel is only a structural-recursion device; `n` itself always suffices
(the digit count of `n` is at most `n`). -/
def natCharsAux : Nat → Nat → Str → Str
  | 0, _, acc => acc
  | fuel + 1, n, acc =>
    if n = 0 then acc else natCharsAux fuel (n / 10) (Nat.digitChar (n % 10) :: acc)

/-- Decimal text of a natural number, as Rust `format!` renders it. -/
def natChars (n : Nat) : Str := if n = 0 then ['0'] else natCharsAux (n + 1) n []

/-- Decimal text of an `i64` value, as Rust `format!("{}", v)` renders it. -/
def intChars (i : Int) : Str := if i < 0 then '-' :: natChars i.natAbs else natChars i.toNat

/-- The unsigned core of `str::parse::<i64>()`: the characters after an
optional sign must be a nonempty digit run whose value fits in `i64`. -/
def parseICore (negSign : Bool) (ds : Str) : Option Int :=
  if ds ≠ [] ∧ ds.all isDigitC = true then
    let n := digitsToNat ds
    if negSign then
      if n ≤ 2 ^ 63 then some (-(n : Int)) else none
    else
      if n ≤ I64MAX then some (n : Int) else none
  else none

/-- Rust `s.parse::<i64>().ok()`: optional `+`/`-` sign, then digits,
rejecting overflow and any non-digit character. -/
def parseI64 (s : Str) : Option Int :=
  match s with
  | [] => none
  | c :: rest =>
    if c = '-' then parseICore true rest
    else if c = '+' then parseICore false rest
    else parseICore false (c :: rest)

/-! ### Lexer (src/lexer.rs) -/

/-- The token vocabulary (`enum Token`). -/
inductive Token where
  | Function | Return | Let | If | Else | While | True | False
  | TypeInt | TypeBool | TypeVoid
  | Identifier (name : Str)
  | Integer (value : Int)
  | LeftParen | RightParen | LeftBrace | RightBrace
  | Colon | Semicolon | Comma | Arrow | Assign
  | Plus | Minus | Star | Slash
  | Equal | NotEqual | Less | LessEqual | Greater | GreaterEqual
  | And | Or
  | Eof
deriving DecidableEq, BEq, Repr

/-- `struct LexerError { message, position }`. -/
structure LexerError where
  message : Str
  position : Nat
deriving DecidableEq, Repr

/-- The keyword table applied to a scanned identifier run. -/
def keywordOf (s : Str) : Token :=
  if s = "fn".data then Token.Function
  else if s = "return".data then Token.Return
  else if s = "let".data then Token.Let
  else if s = "if".data then Token.If
  else if s = "else".data then Token.Else
  else if s = "while".data then Token.While
  else if s = "true".data then Token.True
  else if s = "false".data then Token.False
  else if s = "int".data then Token.TypeInt
  else if s = "bool".data then Token.TypeBool
  else if s = "void".data then Token.TypeVoid
  else Token.Identifier s

/-- `format!("Invalid integer: {}", number)`. -/
def invalidIntegerMsg (number : Str) : Str := "Invalid integer: ".data ++ number

/-- `format!("Unexpected character: {}", ch)`. -/
def unexpectedCharMsg (c : Char) : Str := "Unexpected character: ".data ++ [c]

/-- One step of `lex`: the `while let Some(&ch) = chars.peek()` loop, with
`pos` the running character offset. Each iteration consumes at least one
character, so fuel `input.length + 1` (supplied by `lex`) never runs out;
`none` therefore never escapes to a caller. Errors return `Except.error`
with the tokens collected so far discarded, as in the source. -/
def lexAux : Nat → Str → Nat → Option (Except LexerError (List Token))
  | 0, _, _ => none
  | _ + 1, [], _ => some (Except.ok [Token.Eof])
  | fuel + 1, c :: cs, pos =>
    if isWhitespaceC c then
      lexAux fuel cs (pos + 1)
    else if isAlphabeticC c then
      let run := (c :: cs).takeWhile isIdentContC
      let rest := (c :: cs).dropWhile isIdentContC
      (lexAux fuel rest (pos + run.length)).map (Except.map (keywordOf run :: ·))
    else if isDigitC c then
      let run := (c :: cs).takeWhile isDigitC
      let rest := (c :: cs).dropWhile isDigitC
      match parseI64 run with
      | some v => (lexAux fuel rest (pos + run.length)).map (Except.map (Token.Integer v :: ·))
      | none => some (Except.error ⟨invalidIntegerMsg run, pos + run.length⟩)
    else if c = '-' then
      match cs with
      | '>' :: cs2 => (lexAux fuel cs2 (pos + 2)).map (Except.map (Token.Arrow :: ·))
      | _ => (lexAux fuel cs (pos + 1)).map (Except.map (Token.Minus :: ·))
    else if c = '+' then (lexAux fuel cs (pos + 1)).map (Except.map (Token.Plus :: ·))
    else if c = '*' then (lexAux fuel cs (pos + 1)).map (Except.map (Token.Star :: ·))
    else if c = '/' then (lexAux fuel cs (pos + 1)).map (Except.map (Token.Slash :: ·))
    else if c = '=' then
      match cs with
      | '=' :: cs2 => (lexAux fuel cs2 (pos + 2)).map (Except.map (Token.Equal :: ·))
      | _ => (lexAux fuel cs (pos + 1)).map (Except.map (Token.Assign :: ·))
    else if c = '<' then
      match cs with
      | '=' :: cs2 => (lexAux fuel cs2 (pos + 2)).map (Except.map (Token.LessEqual :: ·))
      | _ => (lexAux fuel cs (pos + 1)).map (Except.map (Token.Less :: ·))
    else if c = '>' then
      match cs with
      | '=' :: cs2 => (lexAux fuel cs2 (pos + 2)).map (Except.map (Token.GreaterEqual :: ·))
      | _ => (lexAux fuel cs (pos + 1)).map (Except.map (Token.Greater :: ·))
    else if c = '!' then
      match cs with
      | '=' :: cs2 => (lexAux fuel cs2 (pos + 2)).map (Except.map (Token.NotEqual :: ·))
      | _ => some (Except.error ⟨"Expected = after !".data, pos + 1⟩)
    else if c = '&' then
      match cs with
      | '&' :: cs2 => (lexAux fuel cs2 (pos + 2)).map (Except.map (Token.And :: ·))
      | _ => some (Except.error ⟨"Expected & after &".data, pos + 1⟩)
    else if c = '|' then
      match cs with
      | '|' :: cs2 => (lexAux fuel cs2 (pos + 2)).map (Except.map (Token.Or :: ·))
      | _ => some (Except.error ⟨"Expected | after |".data, pos + 1⟩)
    else if c = '(' then (lexAux fuel cs (pos + 1)).map (Except.map (Token.LeftParen :: ·))
    else if c = ')' then (lexAux fuel cs (pos + 1)).map (Except.map (Token.RightParen :: ·))
    else if c = '{' then (lexAux fuel cs (pos + 1)).map (Except.map (Token.LeftBrace :: ·))
    else if c = '}' then (lexAux fuel cs (pos + 1)).map (Except.map (Token.RightBrace :: ·))
    else if c = ':' then (lexAux fuel cs (pos + 1)).map (Except.map (Token.Colon :: ·))
    else if c = ';' then (lexAux fuel cs (pos + 1)).map (Except.map (Token.Semicolon :: ·))
    else if c = ',' then (lexAux fuel cs (pos + 1)).map (Except.map (Token.Comma :: ·))
    else some (Except.error ⟨unexpectedCharMsg c, pos⟩)

/-- `pub fn lex(input: &str) -> Result<Vec<Token>, ...>`. -/
def lex (input : Str) : Option (Except LexerError (List Token)) :=
  lexAux (input.length + 1) input 0

/-! ### Abstract syntax tree (src/ast.rs) -/

/-- `enum BinaryOp`. -/
inductive BinaryOp where
  | Add | Subtract | Multiply | Divide | And | Or
deriving DecidableEq, Repr

/-- `enum ComparisonOp`. -/
inductive ComparisonOp where
  | Equal | NotEqual | Less | LessEqual | Greater | GreaterEqual
deriving DecidableEq, Repr

/-- `enum Expr`. -/
inductive Expr where
  | Integer (value : Int)
  | Boolean (value : Bool)
  | Variable (name : Str)
  | Binary (op : BinaryOp) (left : Expr) (right : Expr)
  | Call (name : Str) (args : List Expr)
  | Comparison (op : ComparisonOp) (left : Expr) (right : Expr)
deriving Repr

/-- `enum Type` (renamed: `Type` is reserved in Lean). -/
inductive Ty where
  | Int | Bool | Void
deriving DecidableEq, Repr

/-- `struct Parameter`. -/
structure Parameter where
  name : Str
  typ : Ty
deriving Repr

/-- `enum Statement`. -/
inductive Statement where
  | Return (e : Expr)
  | Let (name : Str) (typ : Ty) (value : Expr)
  | Assignment (target : Str) (value : Expr)
  | Expr (e : Expr)
  | If (condition : Expr) (then_branch : List Statement)
      (else_branch : Option (List Statement))
  | While (condition : Expr) (body : List Statement)
deriving Repr

/-- `struct Function` (named `Func` to stay clear of the Mathlib namespace). -/
structure Func where
  name : Str
  params : List Parameter
  return_type : Ty
  body : List Statement
deriving Repr

/-! ### Parser (src/parser.rs)

`struct Parser { tokens, current }` becomes `PState`; every method result is
a `PRes`: success with the updated cursor, a `ParseError` message, or
`stuck`, which models an out-of-bounds token index (a Rust slice-index
panic), the source's `unreachable!()`, or exhausted fuel. The source's
recursion terminates because the cursor only moves forward; here the
mutually recursive procedures take a fuel argument instead, and each
concrete theorem supplies enough of it. -/

/-- The parser state: the token vector and the cursor. -/
structure PState where
  tokens : List Token
  current : Nat
deriving DecidableEq, Repr

/-- Result of a parser method. -/
inductive PRes (α : Type) where
  | ok (a : α) (s : PState)
  | err (message : Str)
  | stuck
deriving Repr

/-- `fn peek(&self) -> &Token`: `self.tokens[self.current]`, a panic when out
of bounds. -/
def peek (s : PState) : Option Token := s.tokens.get? s.current

/-- `fn is_at_end(&self) -> bool`. -/
def is_at_end (s : PState) : Option Bool := (peek s).map (· == Token.Eof)

/-- `fn advance(&mut self) -> &Token`: move the cursor unless at `Eof`, then
return `previous()`, i.e. `self.tokens[self.current - 1]` (a panic when the
new cursor is `0` or the index is out of bounds). -/
def advance (s : PState) : Option (Token × PState) :=
  match is_at_end s with
  | none => none
  | some atEnd =>
    let s1 : PState := if atEnd then s else { s with current := s.current + 1 }
    if s1.current = 0 then none
    else (s1.tokens.get? (s1.current - 1)).map (fun t => (t, s1))

/-- `fn consume(&mut self, expected, message)`. -/
def consume (expected : Token) (message : Str) (s : PState) : PRes Unit :=
  match peek s with
  | none => PRes.stuck
  | some t =>
    if t == expected then
      match advance s with
      | none => PRes.stuck
      | some (_, s1) => PRes.ok () s1
    else PRes.err message

/-- `fn parse_type(&mut self)`. -/
def parse_type (s : PState) : PRes Ty :=
  match advance s with
  | none => PRes.stuck
  | some (Token.TypeInt, s1) => PRes.ok Ty.Int s1
  | some (Token.TypeBool, s1) => PRes.ok Ty.Bool s1
  | some (Token.TypeVoid, s1) => PRes.ok Ty.Void s1
  | some (_, _) => PRes.err "Expected type".data

mutual

/-- `fn parse_primary(&mut self)`. -/
def parse_primary : Nat → PState → PRes Expr
  | 0, _ => PRes.stuck
  | fuel + 1, s =>
    match advance s with
    | none => PRes.stuck
    | some (Token.Integer value, s1) => PRes.ok (Expr.Integer value) s1
    | some (Token.True, s1) => PRes.ok (Expr.Boolean true) s1
    | some (Token.False, s1) => PRes.ok (Expr.Boolean false) s1
    | some (Token.Identifier name, s1) =>
      match peek s1 with
      | none => PRes.stuck
      | some t =>
        if t == Token.LeftParen then
          match advance s1 with
          | none => PRes.stuck
          | some (_, s2) =>
            match peek s2 with
            | none => PRes.stuck
            | some t2 =>
              if t2 == Token.RightParen then
                match consume Token.RightParen "Expected ) after arguments".data s2 with
                | PRes.ok _ s3 => PRes.ok (Expr.Call name []) s3
                | PRes.err m => PRes.err m
                | PRes.stuck => PRes.stuck
              else
                match parse_call_args fuel s2 [] with
                | PRes.ok args s3 =>
                  match consume Token.RightParen "Expected ) after arguments".data s3 with
                  | PRes.ok _ s4 => PRes.ok (Expr.Call name args) s4
                  | PRes.err m => PRes.err m
                  | PRes.stuck => PRes.stuck
                | PRes.err m => PRes.err m
                | PRes.stuck => PRes.stuck
        else PRes.ok (Expr.Variable name) s1
    | some (_, _) => PRes.err "Expected expression".data

/-- The argument loop inside `parse_primary`: parse an expression, then
continue only past a comma. -/
def parse_call_args : Nat → PState → List Expr → PRes (List Expr)
  | 0, _, _ => PRes.stuck
  | fuel + 1, s, acc =>
    match parse_expression fuel s with
    | PRes.ok e s1 =>
      match peek s1 with
      | none => PRes.stuck
      | some t =>
        if t == Token.Comma then
          match advance s1 with
          | none => PRes.stuck
          | some (_, s2) => parse_call_args fuel s2 (acc ++ [e])
        else PRes.ok (acc ++ [e]) s1
    | PRes.err m => PRes.err m
    | PRes.stuck => PRes.stuck

/-- `fn parse_binary(&mut self)`: one left-associative tier for
`+ - * /`. -/
def parse_binary : Nat → PState → PRes Expr
  | 0, _ => PRes.stuck
  | fuel + 1, s =>
    match parse_primary fuel s with
    | PRes.ok e s1 => parse_binary_loop fuel e s1
    | PRes.err m => PRes.err m
    | PRes.stuck => PRes.stuck

/-- The `while` loop of `parse_binary`. -/
def parse_binary_loop : Nat → Expr → PState → PRes Expr
  | 0, _, _ => PRes.stuck
  | fuel + 1, e, s =>
    match peek s with
    | none => PRes.stuck
    | some t =>
      let op? : Option BinaryOp :=
        match t with
        | Token.Plus => some BinaryOp.Add
        | Token.Minus => some BinaryOp.Subtract
        | Token.Star => some BinaryOp.Multiply
        | Token.Slash => some BinaryOp.Divide
        | _ => none
      match op? with
      | none => PRes.ok e s
      | some op =>
        match advance s with
        | none => PRes.stuck
        | some (_, s1) =>
          match parse_primary fuel s1 with
          | PRes.ok r s2 => parse_binary_loop fuel (Expr.Binary op e r) s2
          | PRes.err m => PRes.err m
          | PRes.stuck => PRes.stuck

/-- `fn parse_comparison(&mut self)`: a `while` loop over the comparison
tokens, so comparisons chain left-associatively. -/
def parse_comparison : Nat → PState → PRes Expr
  | 0, _ => PRes.stuck
  | fuel + 1, s =>
    match parse_binary fuel s with
    | PRes.ok e s1 => parse_comparison_loop fuel e s1
    | PRes.err m => PRes.err m
    | PRes.stuck => PRes.stuck

/-- The `while` loop of `parse_comparison`. -/
def parse_comparison_loop : Nat → Expr → PState → PRes Expr
  | 0, _, _ => PRes.stuck
  | fuel + 1, e, s =>
    match peek s with
    | none => PRes.stuck
    | some t =>
      let op? : Option ComparisonOp :=
        match t with
        | Token.Equal => some ComparisonOp.Equal
        | Token.NotEqual => some ComparisonOp.NotEqual
        | Token.Less => some ComparisonOp.Less
        | Token.LessEqual => some ComparisonOp.LessEqual
        | Token.Greater => some ComparisonOp.Greater
        | Token.GreaterEqual => some ComparisonOp.GreaterEqual
        | _ => none
      match op? with
      | none => PRes.ok e s
      | some op =>
        match advance s with
        | none => PRes.stuck
        | some (_, s1) =>
          match parse_binary fuel s1 with
          | PRes.ok r s2 => parse_comparison_loop fuel (Expr.Comparison op e r) s2
          | PRes.err m => PRes.err m
          | PRes.stuck => PRes.stuck

/-- `fn parse_logical_and(&mut self)`. -/
def parse_logical_and : Nat → PState → PRes Expr
  | 0, _ => PRes.stuck
  | fuel + 1, s =>
    match parse_comparison fuel s with
    | PRes.ok e s1 => parse_logical_and_loop fuel e s1
    | PRes.err m => PRes.err m
    | PRes.stuck => PRes.stuck

/-- The `while` loop of `parse_logical_and`. -/
def parse_logical_and_loop : Nat → Expr → PState → PRes Expr
  | 0, _, _ => PRes.stuck
  | fuel + 1, e, s =>
    match peek s with
    | none => PRes.stuck
    | some Token.And =>
      match advance s with
      | none => PRes.stuck
      | some (_, s1) =>
        match parse_comparison fuel s1 with
        | PRes.ok r s2 => parse_logical_and_loop fuel (Expr.Binary BinaryOp.And e r) s2
        | PRes.err m => PRes.err m
        | PRes.stuck => PRes.stuck
    | some _ => PRes.ok e s

/-- `fn parse_logical_or(&mut self)`. -/
def parse_logical_or : Nat → PState → PRes Expr
  | 0, _ => PRes.stuck
  | fuel + 1, s =>
    match parse_logical_and fuel s with
    | PRes.ok e s1 => parse_logical_or_loop fuel e s1
    | PRes.err m => PRes.err m
    | PRes.stuck => PRes.stuck

/-- The `while` loop of `parse_logical_or`. -/
def parse_logical_or_loop : Nat → Expr → PState → PRes Expr
  | 0, _, _ => PRes.stuck
  | fuel + 1, e, s =>
    match peek s with
    | none => PRes.stuck
    | some Token.Or =>
      match advance s with
      | none => PRes.stuck
      | some (_, s1) =>
        match parse_logical_and fuel s1 with
        | PRes.ok r s2 => parse_logical_or_loop fuel (Expr.Binary BinaryOp.Or e r) s2
        | PRes.err m => PRes.err m
        | PRes.stuck => PRes.stuck
    | some _ => PRes.ok e s

/-- `fn parse_expression(&mut self)`. -/
def parse_expression : Nat → PState → PRes Expr
  | 0, _ => PRes.stuck
  | fuel + 1, s => parse_logical_or fuel s

/-- `fn parse_statement(&mut self)`. The source also prints a debug line in
the fall-through arm; output is not modelled. -/
def parse_statement : Nat → PState → PRes Statement
  | 0, _ => PRes.stuck
  | fuel + 1, s =>
    match peek s with
    | none => PRes.stuck
    | some Token.Return =>
      match advance s with
      | none => PRes.stuck
      | some (_, s1) =>
        match parse_expression fuel s1 with
        | PRes.ok e s2 =>
          match consume Token.Semicolon "Expected ; after return".data s2 with
          | PRes.ok _ s3 => PRes.ok (Statement.Return e) s3
          | PRes.err m => PRes.err m
          | PRes.stuck => PRes.stuck
        | PRes.err m => PRes.err m
        | PRes.stuck => PRes.stuck
    | some Token.Let =>
      match advance s with
      | none => PRes.stuck
      | some (_, s1) =>
        match advance s1 with
        | none => PRes.stuck
        | some (Token.Identifier name, s2) =>
          match consume Token.Colon "Expected : after variable name".data s2 with
          | PRes.ok _ s3 =>
            match parse_type s3 with
            | PRes.ok typ s4 =>
              match consume Token.Assign "Expected = after type".data s4 with
              | PRes.ok _ s5 =>
                match parse_expression fuel s5 with
                | PRes.ok value s6 =>
                  match consume Token.Semicolon "Expected ; after expression".data s6 with
                  | PRes.ok _ s7 => PRes.ok (Statement.Let name typ value) s7
                  | PRes.err m => PRes.err m
                  | PRes.stuck => PRes.stuck
                | PRes.err m => PRes.err m
                | PRes.stuck => PRes.stuck
              | PRes.err m => PRes.err m
              | PRes.stuck => PRes.stuck
            | PRes.err m => PRes.err m
            | PRes.stuck => PRes.stuck
          | PRes.err m => PRes.err m
          | PRes.stuck => PRes.stuck
        | some (_, _) => PRes.err "Expected variable name".data
    | some (Token.Identifier _) =>
      match s.tokens.get? (s.current + 1) with
      | some Token.Assign =>
        match advance s with
        | none => PRes.stuck
        | some (Token.Identifier name, s1) =>
          match advance s1 with
          | none => PRes.stuck
          | some (_, s2) =>
            match parse_expression fuel s2 with
            | PRes.ok value s3 =>
              match consume Token.Semicolon "Expected ; after assignment".data s3 with
              | PRes.ok _ s4 => PRes.ok (Statement.Assignment name value) s4
              | PRes.err m => PRes.err m
              | PRes.stuck => PRes.stuck
            | PRes.err m => PRes.err m
            | PRes.stuck => PRes.stuck
        | some (_, _) => PRes.stuck
      | _ =>
        match parse_expression fuel s with
        | PRes.ok e s1 =>
          match consume Token.Semicolon "Expected ; after expression".data s1 with
          | PRes.ok _ s2 => PRes.ok (Statement.Expr e) s2
          | PRes.err m => PRes.err m
          | PRes.stuck => PRes.stuck
        | PRes.err m => PRes.err m
        | PRes.stuck => PRes.stuck
    | some Token.If => parse_if_statement fuel s
    | some Token.While => parse_while_statement fuel s
    | some _ =>
      match parse_expression fuel s with
      | PRes.ok e s1 =>
        match consume Token.Semicolon "Expected ; after expression".data s1 with
        | PRes.ok _ s2 => PRes.ok (Statement.Expr e) s2
        | PRes.err m => PRes.err m
        | PRes.stuck => PRes.stuck
      | PRes.err m => PRes.err m
      | PRes.stuck => PRes.stuck

/-- A `while self.peek() != RightBrace` statement-collecting loop (shared
shape of the bodies in `parse_function`, `parse_if_statement` and
`parse_while_statement`). -/
def parse_stmt_list : Nat → PState → List Statement → PRes (List Statement)
  | 0, _, _ => PRes.stuck
  | fuel + 1, s, acc =>
    match peek s with
    | none => PRes.stuck
    | some Token.RightBrace => PRes.ok acc s
    | some _ =>
      match parse_statement fuel s with
      | PRes.ok st s1 => parse_stmt_list fuel s1 (acc ++ [st])
      | PRes.err m => PRes.err m
      | PRes.stuck => PRes.stuck

/-- `fn parse_if_statement(&mut self)`. -/
def parse_if_statement : Nat → PState → PRes Statement
  | 0, _ => PRes.stuck
  | fuel + 1, s =>
    match consume Token.If "Expected if".data s with
    | PRes.ok _ s1 =>
      match consume Token.LeftParen "Expected ( after if".data s1 with
      | PRes.ok _ s2 =>
        match parse_expression fuel s2 with
        | PRes.ok condition s3 =>
          match consume Token.RightParen "Expected ) after if condition".data s3 with
          | PRes.ok _ s4 =>
            match consume Token.LeftBrace "Expected \x7b before if body".data s4 with
            | PRes.ok _ s5 =>
              match parse_stmt_list fuel s5 [] with
              | PRes.ok then_branch s6 =>
                match consume Token.RightBrace "Expected \x7d after if body".data s6 with
                | PRes.ok _ s7 =>
                  match peek s7 with
                  | none => PRes.stuck
                  | some Token.Else =>
                    match advance s7 with
                    | none => PRes.stuck
                    | some (_, s8) =>
                      match consume Token.LeftBrace "Expected \x7b before else body".data s8 with
                      | PRes.ok _ s9 =>
                        match parse_stmt_list fuel s9 [] with
                        | PRes.ok else_statements s10 =>
                          match consume Token.RightBrace "Expected \x7d after else body".data s10 with
                          | PRes.ok _ s11 =>
                            PRes.ok (Statement.If condition then_branch (some else_statements)) s11
                          | PRes.err m => PRes.err m
                          | PRes.stuck => PRes.stuck
                        | PRes.err m => PRes.err m
                        | PRes.stuck => PRes.stuck
                      | PRes.err m => PRes.err m
                      | PRes.stuck => PRes.stuck
                  | some _ => PRes.ok (Statement.If condition then_branch none) s7
                | PRes.err m => PRes.err m
                | PRes.stuck => PRes.stuck
              | PRes.err m => PRes.err m
              | PRes.stuck => PRes.stuck
            | PRes.err m => PRes.err m
            | PRes.stuck => PRes.stuck
          | PRes.err m => PRes.err m
          | PRes.stuck => PRes.stuck
        | PRes.err m => PRes.err m
        | PRes.stuck => PRes.stuck
      | PRes.err m => PRes.err m
      | PRes.stuck => PRes.stuck
    | PRes.err m => PRes.err m
    | PRes.stuck => PRes.stuck

/-- `fn parse_while_statement(&mut self)`. -/
def parse_while_statement : Nat → PState → PRes Statement
  | 0, _ => PRes.stuck
  | fuel + 1, s =>
    match consume Token.While "Expected while".data s with
    | PRes.ok _ s1 =>
      match consume Token.LeftParen "Expected ( after while".data s1 with
      | PRes.ok _ s2 =>
        match parse_expression fuel s2 with
        | PRes.ok condition s3 =>
          match consume Token.RightParen "Expected ) after while condition".data s3 with
          | PRes.ok _ s4 =>
            match consume Token.LeftBrace "Expected \x7b before while body".data s4 with
            | PRes.ok _ s5 =>
              match parse_stmt_list fuel s5 [] with
              | PRes.ok body s6 =>
                match consume Token.RightBrace "Expected \x7d after while body".data s6 with
                | PRes.ok _ s7 => PRes.ok (Statement.While condition body) s7
                | PRes.err m => PRes.err m
                | PRes.stuck => PRes.stuck
              | PRes.err m => PRes.err m
              | PRes.stuck => PRes.stuck
            | PRes.err m => PRes.err m
            | PRes.stuck => PRes.stuck
          | PRes.err m => PRes.err m
          | PRes.stuck => PRes.stuck
        | PRes.err m => PRes.err m
        | PRes.stuck => PRes.stuck
      | PRes.err m => PRes.err m
      | PRes.stuck => PRes.stuck
    | PRes.err m => PRes.err m
    | PRes.stuck => PRes.stuck

end

/-- The parameter loop of `parse_function`. -/
def parse_params : Nat → PState → List Parameter → PRes (List Parameter)
  | 0, _, _ => PRes.stuck
  | fuel + 1, s, acc =>
    match advance s with
    | none => PRes.stuck
    | some (Token.Identifier param_name, s1) =>
      match consume Token.Colon "Expected : after parameter name".data s1 with
      | PRes.ok _ s2 =>
        match parse_type s2 with
        | PRes.ok param_type s3 =>
          let acc1 := acc ++ [Parameter.mk param_name param_type]
          match peek s3 with
          | none => PRes.stuck
          | some Token.Comma =>
            match advance s3 with
            | none => PRes.stuck
            | some (_, s4) => parse_params fuel s4 acc1
          | some _ => PRes.ok acc1 s3
        | PRes.err m => PRes.err m
        | PRes.stuck => PRes.stuck
      | PRes.err m => PRes.err m
      | PRes.stuck => PRes.stuck
    | some (_, _) => PRes.err "Expected parameter name".data

/-- `fn parse_function(&mut self)`. -/
def parse_function (fuel : Nat) (s : PState) : PRes Func :=
  match consume Token.Function "Expected fn".data s with
  | PRes.ok _ s1 =>
    match advance s1 with
    | none => PRes.stuck
    | some (Token.Identifier name, s2) =>
      match consume Token.LeftParen "Expected ( after function name".data s2 with
      | PRes.ok _ s3 =>
        let afterParams : PRes (List Parameter) :=
          match peek s3 with
          | none => PRes.stuck
          | some Token.RightParen => PRes.ok [] s3
          | some _ => parse_params fuel s3 []
        match afterParams with
        | PRes.ok params s4 =>
          match consume Token.RightParen "Expected ) after parameters".data s4 with
          | PRes.ok _ s5 =>
            match consume Token.Arrow "Expected -> after parameters".data s5 with
            | PRes.ok _ s6 =>
              match parse_type s6 with
              | PRes.ok return_type s7 =>
                match consume Token.LeftBrace "Expected \x7b before function body".data s7 with
                | PRes.ok _ s8 =>
                  match parse_stmt_list fuel s8 [] with
                  | PRes.ok body s9 =>
                    match consume Token.RightBrace "Expected \x7d after function body".data s9 with
                    | PRes.ok _ s10 => PRes.ok (Func.mk name params return_type body) s10
                    | PRes.err m => PRes.err m
                    | PRes.stuck => PRes.stuck
                  | PRes.err m => PRes.err m
                  | PRes.stuck => PRes.stuck
                | PRes.err m => PRes.err m
                | PRes.stuck => PRes.stuck
              | PRes.err m => PRes.err m
              | PRes.stuck => PRes.stuck
            | PRes.err m => PRes.err m
            | PRes.stuck => PRes.stuck
          | PRes.err m => PRes.err m
          | PRes.stuck => PRes.stuck
        | PRes.err m => PRes.err m
        | PRes.stuck => PRes.stuck
      | PRes.err m => PRes.err m
      | PRes.stuck => PRes.stuck
    | some (_, _) => PRes.err "Expected function name".data
  | PRes.err m => PRes.err m
  | PRes.stuck => PRes.stuck

/-- The `while !parser.is_at_end()` loop of the top-level `parse`. -/
def parse_functions_loop : Nat → PState → List Func → PRes (List Func)
  | 0, _, _ => PRes.stuck
  | fuel + 1, s, acc =>
    match is_at_end s with
    | none => PRes.stuck
    | some true => PRes.ok acc s
    | some false =>
      match parse_function fuel s with
      | PRes.ok f s1 => parse_functions_loop fuel s1 (acc ++ [f])
      | PRes.err m => PRes.err m
      | PRes.stuck => PRes.stuck

/-- `pub fn parse(tokens: Vec<Token>)`. -/
def parse (tokens : List Token) : PRes (List Func) :=
  parse_functions_loop (tokens.length + 1) (PState.mk tokens 0) []

/-! ### IR builder (src/ir.rs)

`HashMap<String, i64>` becomes an association list; the code uses only
`entry(..).or_insert(0)`, `+= 1` and `get`, for which the association list
is observationally the same map. The version counter is only ever stepped
up by one from zero, so it is embedded as `Nat`. A `.unwrap()` on a missing
binding — and a `match` for which the source has no arm (`lower` and
`translate_expr` cover only a subset of their scrutinee's variants) — is
modelled as `Option.none`. -/

/-- `enum Instruction`. -/
inductive Instruction where
  | Constant (result : Str) (value : Int)
  | Binary (result : Str) (op : BinaryOp) (left : Str) (right : Str)
deriving DecidableEq, Repr

/-- `struct Program { instructions, variables }` (the `variables` field is
named `vars`: `variables` is reserved in Lean). -/
structure Program where
  instructions : List Instruction
  vars : List (Str × Nat)
deriving DecidableEq, Repr

/-- `Program::new()`. -/
def Program.new : Program := ⟨[], []⟩

/-- Association-list lookup (`HashMap::get`). -/
def alookup {β : Type} : List (Str × β) → Str → Option β
  | [], _ => none
  | (k, v) :: rest, key => if k = key then some v else alookup rest key

/-- Read of a version counter with the absent-key default `0` (the state
`entry(..).or_insert(0)` starts from). -/
def lookupD (vars : List (Str × Nat)) (base : Str) : Nat := (alookup vars base).getD 0

/-- `ir.variables.entry(name).or_insert(0); *counter += 1`: the stepped
counter and the updated map. The association list is consulted front-first,
so consing the stepped pair is the `HashMap` update: every key's lookup
agrees with the in-place-mutated hash map. -/
def bump (vars : List (Str × Nat)) (name : Str) : Nat × List (Str × Nat) :=
  (lookupD vars name + 1, (name, lookupD vars name + 1) :: vars)

/-- `fn gen_name(name, ir)`: step the version counter for `name` and render
`format!("{}.{}", name, counter)`. -/
def gen_name (name : Str) (ir : Program) : Str × Program :=
  let r := bump ir.vars name
  (name ++ '.' :: natChars r.1, { ir with vars := r.2 })

/-- `fn translate_literal(value, ir, target)`: a named `Constant`
instruction when a target is given, otherwise the literal's text as an
inline operand with no instruction emitted. -/
def translate_literal (value : Int) (ir : Program) (target : Option Str) : Str × Program :=
  match target with
  | some name =>
    let r := gen_name name ir
    (r.1, { r.2 with instructions := r.2.instructions ++ [Instruction.Constant r.1 value] })
  | none => (intChars value, ir)

/-- `fn translate_expr(expr, ir, target)`. The source matches only
`Integer`, `Variable` and `Binary`; the remaining `Expr` variants have no
arm and are modelled as `none`, as is the `.unwrap()` panic on a variable
with no binding. -/
def translate_expr (e : Expr) (ir : Program) (target : Option Str) : Option (Str × Program) :=
  match e with
  | Expr.Integer value => some (translate_literal value ir target)
  | Expr.Variable name =>
    (alookup ir.vars name).map (fun n => (name ++ '.' :: natChars n, ir))
  | Expr.Binary op left right =>
    (match left with
      | Expr.Integer v => some (translate_literal v ir none)
      | _ => translate_expr left ir none).bind fun lp =>
      (match right with
        | Expr.Integer v => some (translate_literal v lp.2 none)
        | _ => translate_expr right lp.2 none).bind fun rp =>
        let r :=
          match target with
          | some name => gen_name name rp.2
          | none => gen_name "bin".data rp.2
        some (r.1,
          { r.2 with
            instructions :=
              r.2.instructions ++ [Instruction.Binary r.1 op lp.1 rp.1] })
  | _ => none

/-- The statement loop of `lower`. The source matches only `Let` and
`Assignment`; other statement variants have no arm and are modelled as
`none`. -/
def lowerGo : List Statement → Program → Option Program
  | [], ir => some ir
  | stmt :: rest, ir =>
    match stmt with
    | Statement.Let name _ value =>
      (translate_expr value ir (some name)).bind fun r => lowerGo rest r.2
    | Statement.Assignment target value =>
      (translate_expr value ir (some target)).bind fun r => lowerGo rest r.2
    | _ => none

/-- `pub fn lower(statements: Vec<Statement>) -> Program`. -/
def lower (statements : List Statement) : Option Program :=
  lowerGo statements Program.new

/-! ### Optimizer (src/ir.rs) -/

/-- The result name of an instruction. -/
def resOf : Instruction → Str
  | Instruction.Constant result _ => result
  | Instruction.Binary result _ _ _ => result

/-- Number of uses of `name` as a `Binary` operand (the `uses` map of
`dead_code_elimination`, read back with default 0). -/
def usesCount (instrs : List Instruction) (name : Str) : Nat :=
  instrs.foldl
    (fun acc i =>
      match i with
      | Instruction.Binary _ _ l r =>
        acc + (if l = name then 1 else 0) + (if r = name then 1 else 0)
      | _ => acc)
    0

/-- `fn dead_code_elimination(program)`: count operand uses over the whole
instruction list, then retain exactly the instructions whose result is
used. -/
def dead_code_elimination (p : Program) : Program :=
  { p with
    instructions := p.instructions.filter fun i => usesCount p.instructions (resOf i) > 0 }

/-- Two's-complement wrap to `i64` (release-mode Rust arithmetic; no claim
exercises an overflowing fold). -/
def wrap64 (z : Int) : Int := (z + 2 ^ 63) % 2 ^ 64 - 2 ^ 63

/-- The arithmetic of one fold: Rust `i64` `+ - * /`. Division panics on a
zero divisor (and on `i64::MIN / -1`), modelled as `none`; the source's
`match op` has no arm for `And`/`Or`, also `none`. -/
def applyBinOp (op : BinaryOp) (a b : Int) : Option Int :=
  match op with
  | BinaryOp.Add => some (wrap64 (a + b))
  | BinaryOp.Subtract => some (wrap64 (a - b))
  | BinaryOp.Multiply => some (wrap64 (a * b))
  | BinaryOp.Divide =>
    if b = 0 ∨ (a = -(2 ^ 63) ∧ b = -1) then none else some (Int.tdiv a b)
  | _ => none

/-- An operand's constant value if known: first the `known_constants` map,
then `parse::<i64>()` on the operand text. -/
def foldVal (known : List (Str × Int)) (oper : Str) : Option Int :=
  match alookup known oper with
  | some v => some v
  | none => parseI64 oper

/-- One instruction of the constant-folding scan: record constants, replace
a `Binary` whose operands are both known by a `Constant` (setting the
modified flag), keep everything else in place. -/
def foldStep (known : List (Str × Int)) (inst : Instruction) :
    Option (Instruction × List (Str × Int) × Bool) :=
  match inst with
  | Instruction.Constant result value => some (inst, (result, value) :: known, false)
  | Instruction.Binary result op left right =>
    match foldVal known left, foldVal known right with
    | some lv, some rv =>
      (applyBinOp op lv rv).map fun v =>
        (Instruction.Constant result v, (result, v) :: known, true)
    | _, _ => some (inst, known, false)

/-- One full `while i < program.instructions.len()` scan of
`constant_folding`. -/
def foldPass (known : List (Str × Int)) :
    List Instruction → Option (List Instruction × List (Str × Int) × Bool)
  | [] => some ([], known, false)
  | i :: rest =>
    (foldStep known i).bind fun st =>
      (foldPass st.2.1 rest).map fun r => (st.1 :: r.1, r.2.1, st.2.2 || r.2.2)

/-- Number of `Binary` instructions; the termination measure of the
`while modified` loop (each modifying scan folds at least one `Binary`
into a `Constant`). -/
def binCount (instrs : List Instruction) : Nat :=
  instrs.countP fun i =>
    match i with
    | Instruction.Binary _ _ _ _ => true
    | _ => false

/-- The `while modified` loop of `constant_folding`, with fuel. Fuel
`binCount instrs + 1` always reaches the unmodified scan
(`foldLoopAux_fuel` below), so the wrapper's fuel choice is not
observable. -/
def foldLoopAux : Nat → List (Str × Int) → List Instruction → Option (List Instruction)
  | 0, _, _ => none
  | fuel + 1, known, instrs =>
    (foldPass known instrs).bind fun r =>
      if r.2.2 then foldLoopAux fuel r.2.1 r.1 else some r.1

/-- `fn constant_folding(program)`; `none` models the `i64` division
panic. -/
def constant_folding (p : Program) : Option Program :=
  (foldLoopAux (binCount p.instructions + 1) [] p.instructions).map fun instrs =>
    { p with instructions := instrs }

/-- `pub fn optimize(program)`: one dead-code-elimination pass, then
constant folding (the source's `println!` tracing is not modelled). -/
def optimize (p : Program) : Option Program :=
  constant_folding (dead_code_elimination p)

/-- The informal integer evaluation of an AST expression used by the
specification's parser-precedence property (literals and exact integer
arithmetic; anything else has no informal integer value). -/
def evalArith : Expr → Option Int
  | Expr.Integer v => some v
  | Expr.Binary op l r =>
    (evalArith l).bind fun a =>
      (evalArith r).bind fun b =>
        match op with
        | BinaryOp.Add => some (a + b)
        | BinaryOp.Subtract => some (a - b)
        | BinaryOp.Multiply => some (a * b)
        | BinaryOp.Divide => if b = 0 then none else some (Int.tdiv a b)
        | _ => none
  | _ => none

/-! ### Concrete programs of the specification's examples -/

/-- AST of `let x: int = 3; let y: int = 4; let z: int = x * y;`. -/
def stmtsC1 : List Statement :=
  [Statement.Let "x".data Ty.Int (Expr.Integer 3),
   Statement.Let "y".data Ty.Int (Expr.Integer 4),
   Statement.Let "z".data Ty.Int
     (Expr.Binary BinaryOp.Multiply (Expr.Variable "x".data) (Expr.Variable "y".data))]

/-- AST of `let x: int = 1 / 0;`. -/
def stmtsDiv0 : List Statement :=
  [Statement.Let "x".data Ty.Int
    (Expr.Binary BinaryOp.Divide (Expr.Integer 1) (Expr.Integer 0))]

/-- AST of `let a: int = 2; let b: int = a * 3;`. -/
def stmtsAB : List Statement :=
  [Statement.Let "a".data Ty.Int (Expr.Integer 2),
   Statement.Let "b".data Ty.Int
     (Expr.Binary BinaryOp.Multiply (Expr.Variable "a".data) (Expr.Integer 3))]

/-- The token stream of `1 + 2 * 3;`. -/
def toksPrec : List Token :=
  [Token.Integer 1, Token.Plus, Token.Integer 2, Token.Star, Token.Integer 3,
   Token.Semicolon, Token.Eof]

/-- The tree the parser actually builds for `1 + 2 * 3`: `(1 + 2) * 3`. -/
def exprPrec : Expr :=
  Expr.Binary BinaryOp.Multiply
    (Expr.Binary BinaryOp.Add (Expr.Integer 1) (Expr.Integer 2))
    (Expr.Integer 3)

/-- The token stream of the expression `a < b < c` (then `;` and `Eof`). -/
def toksChain (a b c : Str) : List Token :=
  [Token.Identifier a, Token.Less, Token.Identifier b, Token.Less, Token.Identifier c,
   Token.Semicolon, Token.Eof]

/-- The builder invariant behind SSA uniqueness: every emitted result name
is `base ++ "." ++ digits k` for some base whose current version counter is
at least `k ≥ 1`, and the result names are pairwise distinct. -/
def Inv (p : Program) : Prop :=
  (∀ i ∈ p.instructions, ∃ base k, resOf i = base ++ '.' :: natChars k ∧
    1 ≤ k ∧ k ≤ lookupD p.vars base) ∧
  (p.instructions.map resOf).Nodup

/-! ### Decimal-text lemmas -/

/-- `natCharsAux` ignores the fuel once it covers `n`. -/
theorem natCharsAux_fuel (f : Nat) : ∀ g n acc, n ≤ f → n ≤ g →
    natCharsAux f n acc = natCharsAux g n acc := by
  induction f with
  | zero =>
    intro g n acc hf _
    interval_cases n
    cases g <;> simp [natCharsAux]
  | succ f ih =>
    intro g n acc hf hg
    by_cases hn : n = 0
    · subst hn; cases g <;> simp [natCharsAux]
    · have hg1 : 1 ≤ g := by omega
      obtain ⟨g, rfl⟩ : ∃ g0, g = g0 + 1 := ⟨g - 1, by omega⟩
      have hlt : n / 10 < n := Nat.div_lt_self (by omega) (by omega)
      simp only [natCharsAux, if_neg hn]
      exact ih g (n / 10) _ (by omega) (by omega)

/-- `natCharsAux` prepends its digits to the accumulator. -/
theorem natCharsAux_append (f : Nat) : ∀ n acc,
    natCharsAux f n acc = natCharsAux f n [] ++ acc := by
  induction f with
  | zero => intro n acc; simp [natCharsAux]
  | succ f ih =>
    intro n acc
    by_cases hn : n = 0
    · subst hn; simp [natCharsAux]
    · simp only [natCharsAux, if_neg hn]
      rw [ih (n / 10) (Nat.digitChar (n % 10) :: acc), ih (n / 10) [Nat.digitChar (n % 10)],
        List.append_assoc]
      rfl

/-- The recursion `natChars` satisfies: peel the least significant digit. -/
theorem natChars_eq (n : Nat) (hn : n ≠ 0) :
    natChars n = (if 10 ≤ n then natChars (n / 10) else []) ++ [Nat.digitChar (n % 10)] := by
  have h1 : natChars n = natCharsAux (n + 1) n [] := by simp [natChars, hn]
  have hlt : n / 10 < n := Nat.div_lt_self (by omega) (by omega)
  have h2 : natCharsAux (n + 1) n [] = natCharsAux (n / 10 + 1) (n / 10) [Nat.digitChar (n % 10)] := by
    simp only [natCharsAux, if_neg hn]
    exact natCharsAux_fuel n (n / 10 + 1) (n / 10) _ (by omega) (by omega)
  rw [h1, h2, natCharsAux_append]
  by_cases h10 : 10 ≤ n
  · have : n / 10 ≠ 0 := by omega
    rw [if_pos h10]
    simp [natChars, this]
  · have : n / 10 = 0 := by omega
    rw [if_neg h10, this]
    simp [natCharsAux]

/-- Every character of a decimal rendering is an ASCII digit. -/
theorem natChars_all_digits (n : Nat) : ∀ c ∈ natChars n, isDigitC c = true := by
  induction n using Nat.strong_induction_on with
  | _ n ih =>
    by_cases hn : n = 0
    · subst hn; intro c hc; simp [natChars] at hc; subst hc; decide
    · rw [natChars_eq n hn]
      intro c hc
      rcases List.mem_append.mp hc with h | h
      · by_cases h10 : 10 ≤ n
        · rw [if_pos h10] at h
          exact ih (n / 10) (Nat.div_lt_self (by omega) (by omega)) c h
        · rw [if_neg h10] at h; cases h
      · have hd : n % 10 < 10 := Nat.mod_lt _ (by omega)
        have : ∀ d < 10, isDigitC (Nat.digitChar d) = true := by decide
        simp at h; subst h
        exact this _ hd

/-- A decimal rendering is never empty. -/
theorem natChars_ne_nil (n : Nat) : natChars n ≠ [] := by
  by_cases hn : n = 0
  · subst hn; simp [natChars]
  · rw [natChars_eq n hn]; simp

/-- The digit-accumulator fold inverts `natChars` (general accumulator). -/
theorem foldl_natChars (n : Nat) (hn : n ≠ 0) : ∀ a : Nat,
    (natChars n).foldl (fun x c => 10 * x + (c.toNat - 48)) a =
      a * 10 ^ (natChars n).length + n := by
  induction n using Nat.strong_induction_on with
  | _ n ih =>
    intro a
    have hdv : ∀ d < 10, (Nat.digitChar d).toNat = 48 + d := by decide
    have hm : n % 10 < 10 := Nat.mod_lt _ (by omega)
    rw [natChars_eq n hn]
    by_cases h10 : 10 ≤ n
    · have hq : n / 10 ≠ 0 := by omega
      rw [if_pos h10, List.foldl_append, ih (n / 10) (Nat.div_lt_self (by omega) (by omega)) hq a]
      simp only [List.foldl_cons, List.foldl_nil, List.length_append, List.length_cons,
        List.length_nil, hdv _ hm]
      have hdm := Nat.div_add_mod n 10
      ring_nf
      omega
    · rw [if_neg h10]
      simp only [List.foldl_cons, List.foldl_nil, List.length_nil, List.nil_append,
        List.length_cons, hdv _ hm]
      have : n % 10 = n := Nat.mod_eq_of_lt (by omega)
      omega

/-- `digitsToNat` recovers the number from its decimal text. -/
theorem digitsToNat_natChars (n : Nat) : digitsToNat (natChars n) = n := by
  by_cases hn : n = 0
  · subst hn; decide
  · have := foldl_natChars n hn 0
    simpa [digitsToNat] using this

/-- Decimal rendering is injective. -/
theorem natChars_inj {m n : Nat} (h : natChars m = natChars n) : m = n := by
  have := congrArg digitsToNat h
  rwa [digitsToNat_natChars, digitsToNat_natChars] at this

/-- No decimal rendering contains a dot (the separator of generated SSA
names). -/
theorem natChars_no_dot (n : Nat) : ∀ c ∈ natChars n, c ≠ '.' := by
  intro c hc
  have hd := natChars_all_digits n c hc
  rintro rfl
  exact absurd hd (by decide)

/-- Splitting a concatenation at a dot whose suffixes are dot-free is
unambiguous. -/
theorem prefix_dot_inj : ∀ (as bs t u : Str), (∀ c ∈ as, c ≠ '.') → (∀ c ∈ bs, c ≠ '.') →
    as ++ '.' :: t = bs ++ '.' :: u → as = bs ∧ t = u := by
  intro as
  induction as with
  | nil =>
    intro bs t u _ hbs h
    cases bs with
    | nil => simpa using h
    | cons b bs =>
      simp only [List.nil_append, List.cons_append, List.cons.injEq] at h
      exact absurd h.1.symm (hbs b (List.mem_cons_self b bs))
  | cons a as ih =>
    intro bs t u has hbs h
    cases bs with
    | nil =>
      simp only [List.cons_append, List.nil_append, List.cons.injEq] at h
      exact absurd h.1 (has a (List.mem_cons_self a as))
    | cons b bs =>
      simp only [List.cons_append, List.cons.injEq] at h
      obtain ⟨rfl, h2⟩ := h
      obtain ⟨rfl, rfl⟩ := ih bs t u (fun c hc => has c (List.mem_cons_of_mem _ hc))
        (fun c hc => hbs c (List.mem_cons_of_mem _ hc)) h2
      exact ⟨rfl, rfl⟩

/-- A generated name `base ++ "." ++ digits` determines its base and its
counter text, since the counter text is dot-free. -/
theorem name_dot_inj (xs ys ds es : Str) (hds : ∀ c ∈ ds, c ≠ '.')
    (hes : ∀ c ∈ es, c ≠ '.') (h : xs ++ '.' :: ds = ys ++ '.' :: es) :
    xs = ys ∧ ds = es := by
  have hrev := congrArg List.reverse h
  simp only [List.reverse_append, List.reverse_cons] at hrev
  rw [List.append_assoc, List.append_assoc] at hrev
  simp only [List.singleton_append] at hrev
  obtain ⟨h1, h2⟩ := prefix_dot_inj ds.reverse es.reverse xs.reverse ys.reverse
    (fun c hc => hds c (List.mem_reverse.mp hc))
    (fun c hc => hes c (List.mem_reverse.mp hc)) hrev
  constructor
  · have := congrArg List.reverse h2; simpa using this
  · have := congrArg List.reverse h1; simpa using this

/-! ### Lexer lemmas -/

/-- An ASCII digit is not whitespace, not a letter, and not a sign. -/
theorem digit_class (c : Char) (h : isDigitC c = true) :
    isWhitespaceC c = false ∧ isAlphabeticC c = false ∧ c ≠ '-' ∧ c ≠ '+' := by
  simp only [isDigitC, Bool.and_eq_true, decide_eq_true_eq] at h
  refine ⟨?_, ?_, ?_, ?_⟩
  · simp only [isWhitespaceC, Bool.or_eq_false_iff, Bool.and_eq_false_iff, beq_eq_false_iff_ne,
      ne_eq, decide_eq_false_iff_not, not_le]
    omega
  · simp only [isAlphabeticC, Bool.or_eq_false_iff, Bool.and_eq_false_iff,
      decide_eq_false_iff_not, not_le]
    omega
  · rintro rfl; exact absurd h (by decide)
  · rintro rfl; exact absurd h (by decide)

/-- `parse::<i64>()` on a nonempty pure digit run: the running value, range
checked against `i64::MAX`. -/
theorem parseI64_digits (ds : Str) (hne : ds ≠ []) (hd : ∀ c ∈ ds, isDigitC c = true) :
    parseI64 ds =
      if digitsToNat ds ≤ I64MAX then some (digitsToNat ds : Int) else none := by
  obtain ⟨c, cs, rfl⟩ : ∃ c cs, ds = c :: cs := by
    cases ds with
    | nil => exact absurd rfl hne
    | cons c cs => exact ⟨c, cs, rfl⟩
  have hc := digit_class c (hd c (List.mem_cons_self c cs))
  rw [parseI64, if_neg hc.2.2.1, if_neg hc.2.2.2, parseICore,
    if_pos ⟨by simp, List.all_eq_true.mpr hd⟩]
  simp

/-- Lexing an input that is one nonempty digit run: a single `Integer`
token and `Eof` when the run parses, the `InvalidInteger` error — whose
position is the offset just past the run — when it does not. -/
theorem lex_digits (ds : Str) (hne : ds ≠ []) (hd : ∀ c ∈ ds, isDigitC c = true) :
    lex ds =
      some (if digitsToNat ds ≤ I64MAX
        then Except.ok [Token.Integer (digitsToNat ds : Int), Token.Eof]
        else Except.error ⟨invalidIntegerMsg ds, ds.length⟩) := by
  obtain ⟨c, cs, rfl⟩ : ∃ c cs, ds = c :: cs := by
    cases ds with
    | nil => exact absurd rfl hne
    | cons c cs => exact ⟨c, cs, rfl⟩
  have hc := digit_class c (hd c (List.mem_cons_self c cs))
  have htake : (c :: cs).takeWhile isDigitC = c :: cs := List.takeWhile_eq_self_iff.mpr hd
  have hdrop : (c :: cs).dropWhile isDigitC = [] := List.dropWhile_eq_nil_iff.mpr hd
  have hfuel : (c :: cs).length + 1 = (cs.length + 1) + 1 := by simp
  rw [lex, hfuel, lexAux, if_neg (by simp [hc.1]), if_neg (by simp [hc.2.1]),
    if_pos (hd c (List.mem_cons_self c cs)), htake, hdrop]
  simp only [parseI64_digits (c :: cs) hne hd]
  case _ =>
    by_cases hr : digitsToNat (c :: cs) ≤ I64MAX
    · rw [if_pos hr, if_pos hr]
      rfl
    · rw [if_neg hr, if_neg hr]
      simp
  all_goals
    rintro cs2 rfl
    exact absurd (hd _ (List.mem_cons_of_mem _ (List.mem_cons_self _ _))) (by decide)

/-! ### Optimizer lemmas -/

/-- One folding step never changes the result name of the instruction. -/
theorem foldStep_res (known : List (Str × Int)) (i i' : Instruction)
    (k' : List (Str × Int)) (m : Bool) (h : foldStep known i = some (i', k', m)) :
    resOf i' = resOf i := by
  cases i with
  | Constant result value =>
    simp only [foldStep, Option.some.injEq, Prod.mk.injEq] at h
    rw [← h.1]
  | Binary result op l r =>
    simp only [foldStep] at h
    rcases hl : foldVal known l with _ | lv <;> rw [hl] at h
    · simp only [Option.some.injEq, Prod.mk.injEq] at h
      rw [← h.1]
    · rcases hr : foldVal known r with _ | rv <;> rw [hr] at h
      · simp only [Option.some.injEq, Prod.mk.injEq] at h
        rw [← h.1]
      · simp only [Option.map_eq_some', Prod.mk.injEq] at h
        obtain ⟨v, _, hv⟩ := h
        rw [← hv.1]
        rfl

/-- A modifying step folds a `Binary` into a `Constant`; an unmodifying
step keeps the instruction. -/
theorem foldStep_shape (known : List (Str × Int)) (i i' : Instruction)
    (k' : List (Str × Int)) (m : Bool) (h : foldStep known i = some (i', k', m)) :
    (m = false → i' = i) ∧
    (m = true → (∃ r v, i' = Instruction.Constant r v) ∧ ∃ r op l rr, i = Instruction.Binary r op l rr) := by
  cases i with
  | Constant result value =>
    simp only [foldStep, Option.some.injEq, Prod.mk.injEq] at h
    obtain ⟨h1, _, h3⟩ := h
    subst h1; subst h3
    exact ⟨fun _ => rfl, by simp⟩
  | Binary result op l r =>
    simp only [foldStep] at h
    rcases hl : foldVal known l with _ | lv <;> rw [hl] at h
    · simp only [Option.some.injEq, Prod.mk.injEq] at h
      obtain ⟨h1, _, h3⟩ := h
      subst h1; subst h3
      exact ⟨fun _ => rfl, by simp⟩
    · rcases hr : foldVal known r with _ | rv <;> rw [hr] at h
      · simp only [Option.some.injEq, Prod.mk.injEq] at h
        obtain ⟨h1, _, h3⟩ := h
        subst h1; subst h3
        exact ⟨fun _ => rfl, by simp⟩
      · simp only [Option.map_eq_some', Prod.mk.injEq] at h
        obtain ⟨v, _, hv⟩ := h
        obtain ⟨h1, _, h3⟩ := hv
        subst h1; subst h3
        exact ⟨by simp, fun _ => ⟨⟨result, v, rfl⟩, result, op, l, r, rfl⟩⟩

/-- `binCount` on a cons. -/
theorem binCount_cons (i : Instruction) (l : List Instruction) :
    binCount (i :: l) =
      (match i with | Instruction.Binary _ _ _ _ => 1 | _ => 0) + binCount l := by
  cases i <;> (simp [binCount, List.countP_cons]; try omega)

/-- A full scan preserves the result names in order, never increases the
number of `Binary` instructions, and strictly decreases it when the
modified flag is set. -/
theorem foldPass_spec (l : List Instruction) : ∀ (known k' : List (Str × Int))
    (l' : List Instruction) (m : Bool), foldPass known l = some (l', k', m) →
    l'.map resOf = l.map resOf ∧ binCount l' ≤ binCount l ∧
      (m = true → binCount l' < binCount l) := by
  induction l with
  | nil =>
    intro known k' l' m h
    simp only [foldPass, Option.some.injEq, Prod.mk.injEq] at h
    obtain ⟨h1, _, h3⟩ := h
    subst h1; subst h3
    simp
  | cons i rest ih =>
    intro known k' l' m h
    simp only [foldPass, Option.bind_eq_some, Option.map_eq_some', Prod.mk.injEq] at h
    obtain ⟨⟨i1, k1, m1⟩, hstep, ⟨l2, k2, m2⟩, hpass, he1, he2, he3⟩ := h
    subst he1; subst he2; subst he3
    obtain ⟨hres, hle, hlt⟩ := ih k1 k2 l2 m2 hpass
    have hstep_res := foldStep_res known i i1 k1 m1 hstep
    have hshape := foldStep_shape known i i1 k1 m1 hstep
    refine ⟨by simp [hres, hstep_res], ?_, ?_⟩
    · rw [binCount_cons, binCount_cons]
      cases m1 with
      | false =>
        rw [hshape.1 rfl]
        exact Nat.add_le_add_left hle _
      | true =>
        obtain ⟨⟨r0, v0, hi1⟩, r1, op1, a1, b1, hi⟩ := hshape.2 rfl
        subst hi1; subst hi
        change 0 + binCount l2 ≤ 1 + binCount rest
        omega
    · intro hm
      rw [binCount_cons, binCount_cons]
      cases m1 with
      | false =>
        have hm2 : m2 = true := by simpa using hm
        rw [hshape.1 rfl]
        exact Nat.add_lt_add_left (hlt hm2) _
      | true =>
        obtain ⟨⟨r0, v0, hi1⟩, r1, op1, a1, b1, hi⟩ := hshape.2 rfl
        subst hi1; subst hi
        change 0 + binCount l2 < 1 + binCount rest
        omega

/-- The `while modified` loop preserves the result names in order. -/
theorem foldLoopAux_res (fuel : Nat) : ∀ (known : List (Str × Int)) (l out : List Instruction),
    foldLoopAux fuel known l = some out → out.map resOf = l.map resOf := by
  induction fuel with
  | zero => intro known l out h; simp [foldLoopAux] at h
  | succ fuel ih =>
    intro known l out h
    simp only [foldLoopAux, Option.bind_eq_some] at h
    obtain ⟨⟨l1, k1, m1⟩, hpass, hrest⟩ := h
    have hp := (foldPass_spec l known k1 l1 m1 hpass).1
    cases m1 with
    | false =>
      simp only [if_neg (Bool.false_ne_true), Option.some.injEq] at hrest
      rw [← hrest]
      exact hp
    | true =>
      simp only [if_pos rfl] at hrest
      rw [ih k1 l1 out hrest]
      exact hp

/-- The loop's result does not depend on the fuel once the fuel exceeds the
number of `Binary` instructions: the wrapper's choice in
`constant_folding` is exactly the source's unbounded `while modified`
loop. -/
theorem foldLoopAux_fuel (f : Nat) : ∀ (g : Nat) (known : List (Str × Int))
    (l : List Instruction), binCount l < f → binCount l < g →
    foldLoopAux f known l = foldLoopAux g known l := by
  induction f with
  | zero => intro g known l hf _; omega
  | succ f ih =>
    intro g known l hf hg
    obtain ⟨g, rfl⟩ : ∃ g0, g = g0 + 1 := ⟨g - 1, by omega⟩
    simp only [foldLoopAux]
    cases hpass : foldPass known l with
    | none => rfl
    | some r =>
      obtain ⟨l1, k1, m1⟩ := r
      cases m1 with
      | false => rfl
      | true =>
        have hlt := (foldPass_spec l known k1 l1 true hpass).2.2 rfl
        show foldLoopAux f k1 l1 = foldLoopAux g k1 l1
        exact ih g k1 l1 (by omega) (by omega)

/-! ### IR-builder lemmas -/

/-- How `bump` changes the counters: the bumped base steps by one, every
other base keeps its counter. -/
theorem bump_lookup (vars : List (Str × Nat)) (name b : Str) :
    lookupD (bump vars name).2 b =
      if b = name then lookupD vars name + 1 else lookupD vars b := by
  by_cases hb : b = name
  · subst hb; simp [bump, lookupD, alookup]
  · rw [if_neg hb]
    show (alookup ((name, lookupD vars name + 1) :: vars) b).getD 0 = lookupD vars b
    rw [alookup, if_neg (fun h => hb h.symm)]
    rfl

/-- `gen_name`, written out: the fresh name is the base, a dot, and the
stepped counter's digits. -/
theorem gen_name_eq (name : Str) (ir : Program) :
    gen_name name ir =
      (name ++ '.' :: natChars (lookupD ir.vars name + 1),
        { ir with vars := (bump ir.vars name).2 }) := rfl

/-- Appending one instruction whose result is the name `gen_name` just
generated preserves the builder invariant: the fresh counter value makes
the new name distinct from every name already bound. -/
theorem push_fresh (ir : Program) (name : Str) (inst : Instruction)
    (hInv : Inv ir) (hres : resOf inst = (gen_name name ir).1) :
    Inv { (gen_name name ir).2 with
      instructions := (gen_name name ir).2.instructions ++ [inst] } := by
  rw [gen_name_eq] at hres
  constructor
  · intro i hi
    rcases List.mem_append.mp hi with h | h
    · obtain ⟨base, k, hk1, hk2, hk3⟩ := hInv.1 i h
      refine ⟨base, k, hk1, hk2, ?_⟩
      show k ≤ lookupD (bump ir.vars name).2 base
      rw [bump_lookup]
      by_cases hbn : base = name
      · rw [if_pos hbn]; subst hbn; omega
      · rw [if_neg hbn]; exact hk3
    · have hinst : i = inst := by simpa using h
      subst hinst
      refine ⟨name, lookupD ir.vars name + 1, hres, by omega, ?_⟩
      show lookupD ir.vars name + 1 ≤ lookupD (bump ir.vars name).2 name
      rw [bump_lookup, if_pos rfl]
  · show ((ir.instructions ++ [inst]).map resOf).Nodup
    rw [List.map_append, List.nodup_append]
    refine ⟨hInv.2, by simp, ?_⟩
    intro a ha hb
    have hab : a = resOf inst := by simpa using hb
    subst hab
    obtain ⟨i, hi, hri⟩ := List.mem_map.mp ha
    obtain ⟨base, k, hk1, hk2, hk3⟩ := hInv.1 i hi
    have heq : base ++ '.' :: natChars k =
        name ++ '.' :: natChars (lookupD ir.vars name + 1) := by
      rw [← hk1, hri, hres]
    obtain ⟨hbase, hdig⟩ := name_dot_inj base name (natChars k)
      (natChars (lookupD ir.vars name + 1)) (natChars_no_dot k)
      (natChars_no_dot (lookupD ir.vars name + 1)) heq
    have hkc : k = lookupD ir.vars name + 1 := natChars_inj hdig
    subst hbase
    omega

/-- `translate_literal` preserves the invariant. -/
theorem translate_literal_inv (v : Int) (ir : Program) (target : Option Str)
    (hInv : Inv ir) : Inv (translate_literal v ir target).2 := by
  cases target with
  | none => exact hInv
  | some name =>
    exact push_fresh ir name (Instruction.Constant (gen_name name ir).1 v) hInv rfl

/-- `translate_expr` preserves the invariant whenever it returns. -/
theorem translate_expr_inv : ∀ (e : Expr) (ir : Program) (target : Option Str)
    (r : Str × Program), Inv ir → translate_expr e ir target = some r → Inv r.2
  | Expr.Integer v, ir, target, r, hInv, heq => by
    simp only [translate_expr, Option.some.injEq] at heq
    rw [← heq]
    exact translate_literal_inv v ir target hInv
  | Expr.Variable name, ir, target, r, hInv, heq => by
    simp only [translate_expr, Option.map_eq_some'] at heq
    obtain ⟨n, _, hr⟩ := heq
    rw [← hr]
    exact hInv
  | Expr.Boolean b, ir, target, r, hInv, heq => by
    simp only [translate_expr] at heq
    exact Option.noConfusion heq
  | Expr.Call n args, ir, target, r, hInv, heq => by
    simp only [translate_expr] at heq
    exact Option.noConfusion heq
  | Expr.Comparison op l rgt, ir, target, r, hInv, heq => by
    simp only [translate_expr] at heq
    exact Option.noConfusion heq
  | Expr.Binary op l rgt, ir, target, r, hInv, heq => by
    have hunf : translate_expr (Expr.Binary op l rgt) ir target =
        (translate_expr l ir none).bind fun lp =>
          (translate_expr rgt lp.2 none).bind fun rp =>
            let g :=
              match target with
              | some name => gen_name name rp.2
              | none => gen_name "bin".data rp.2
            some (g.1,
              { g.2 with
                instructions :=
                  g.2.instructions ++ [Instruction.Binary g.1 op lp.1 rp.1] }) := by
      cases l <;> cases rgt <;> rfl
    rw [hunf] at heq
    simp only [Option.bind_eq_some] at heq
    obtain ⟨lp, hlp, rp, hrp, heq⟩ := heq
    have hInvL : Inv lp.2 := translate_expr_inv l ir none lp hInv hlp
    have hInvR : Inv rp.2 := translate_expr_inv rgt lp.2 none rp hInvL hrp
    cases target with
    | some name =>
      simp only [Option.some.injEq] at heq
      rw [← heq]
      exact push_fresh rp.2 name
        (Instruction.Binary (gen_name name rp.2).1 op lp.1 rp.1) hInvR rfl
    | none =>
      simp only [Option.some.injEq] at heq
      rw [← heq]
      exact push_fresh rp.2 "bin".data
        (Instruction.Binary (gen_name "bin".data rp.2).1 op lp.1 rp.1) hInvR rfl

/-- The statement loop of `lower` preserves the invariant. -/
theorem lowerGo_inv : ∀ (stmts : List Statement) (ir q : Program),
    Inv ir → lowerGo stmts ir = some q → Inv q
  | [], ir, q, hInv, h => by
    simp only [lowerGo, Option.some.injEq] at h
    rw [← h]
    exact hInv
  | stmt :: rest, ir, q, hInv, h => by
    cases stmt with
    | Let name typ value =>
      simp only [lowerGo, Option.bind_eq_some] at h
      obtain ⟨rp, hrp, hrest⟩ := h
      exact lowerGo_inv rest rp.2 q (translate_expr_inv value ir (some name) rp hInv hrp) hrest
    | Assignment target value =>
      simp only [lowerGo, Option.bind_eq_some] at h
      obtain ⟨rp, hrp, hrest⟩ := h
      exact lowerGo_inv rest rp.2 q (translate_expr_inv value ir (some target) rp hInv hrp) hrest
    | Return e => simp [lowerGo] at h
    | Expr e => simp [lowerGo] at h
    | If c t e => simp [lowerGo] at h
    | While c b => simp [lowerGo] at h

/-! ### Claims -/

/-- C1, counterexample. Lowering `let x: int = 3; let y: int = 4;
let z: int = x * y;` does produce the three expected instructions, but
optimizing that IR does not yield the single `Constant z.1 = 12` the claim
states: `optimize` runs dead-code elimination before constant folding, the
unused `z.1` division-free product is removed as dead, and the two
constants remain. -/
theorem c1_cex :
    ((lower stmtsC1).bind optimize).map Program.instructions =
      some [Instruction.Constant "x.1".data 3, Instruction.Constant "y.1".data 4] ∧
    ((lower stmtsC1).bind optimize).map Program.instructions ≠
      some [Instruction.Constant "z.1".data 12] := by
  exact ⟨rfl, by decide⟩

/-- C1, amended: lowering the example produces exactly the three
`Constant`/`Binary` instructions, and the optimizer (which eliminates dead
code first) then removes the unused `Binary z.1` instruction and returns
the two constants `x.1 = 3` and `y.1 = 4`; no `Constant z.1 = 12` is ever
produced. -/
theorem c1_amended :
    (lower stmtsC1).map Program.instructions =
      some [Instruction.Constant "x.1".data 3, Instruction.Constant "y.1".data 4,
        Instruction.Binary "z.1".data BinaryOp.Multiply "x.1".data "y.1".data] ∧
    ((lower stmtsC1).bind optimize).map Program.instructions =
      some [Instruction.Constant "x.1".data 3, Instruction.Constant "y.1".data 4] :=
  ⟨rfl, rfl⟩

/-- C2, counterexample. Optimizing the IR of `let x: int = 1 / 0;` does not
return a `DivisionByZero` error: dead-code elimination removes the unused
division before folding sees it, and the optimizer succeeds with an empty
instruction list. (No error value exists in the optimizer at all.) -/
theorem c2_cex :
    (lower stmtsDiv0).map Program.instructions =
      some [Instruction.Binary "x.1".data BinaryOp.Divide "1".data "0".data] ∧
    (lower stmtsDiv0).bind optimize = some ⟨[], [("x".data, 1)]⟩ :=
  ⟨rfl, rfl⟩

/-- C2, amended: when constant folding actually reaches a `Binary` division
whose operands resolve to known constants with divisor `0`, the Rust `/`
panics — modelled as `none` — instead of returning a `DivisionByZero`
error value; and the `1 / 0` example never even reaches folding (see the
counterexample), because dead-code elimination deletes it first. -/
theorem c2_amended (res l r : Str) (rest : List Instruction) (vs : List (Str × Nat))
    (lv : Int) (hl : parseI64 l = some lv) (hr : parseI64 r = some 0) :
    constant_folding ⟨Instruction.Binary res BinaryOp.Divide l r :: rest, vs⟩ = none := by
  simp [constant_folding, foldLoopAux, foldPass, foldStep, foldVal, alookup, hl, hr, applyBinOp]

/-- Witness for the amended C2 at the lowered `1 / 0` instruction. -/
theorem c2_amended_wit :
    parseI64 "1".data = some 1 ∧ parseI64 "0".data = some 0 ∧
    constant_folding ⟨[Instruction.Binary "x.1".data BinaryOp.Divide "1".data "0".data], []⟩ =
      none :=
  ⟨rfl, rfl, c2_amended "x.1".data "1".data "0".data [] [] 1 rfl rfl⟩

/-- C3, counterexample. The optimizer is not a fixed point: on the IR of
`let a: int = 2; let b: int = a * 3;` the first run of `optimize` removes
the dead `b.1` product but keeps `a.1` (it was still used when the use
counts were taken), and a second run then removes the now-orphaned
`a.1` — the two outputs differ. -/
theorem c3_cex :
    ((lower stmtsAB).bind optimize).bind optimize ≠ (lower stmtsAB).bind optimize := by
  decide

/-- C3, amended: `optimize` runs dead-code elimination once and then
constant folding once (only folding loops internally until an unmodified
scan); the two passes do not alternate to a mutual fixed point, so a second
run of `optimize` can strictly shrink the program, as on the `a`/`b`
example where the first run leaves `a.1 = 2` and the second deletes it. -/
theorem c3_amended :
    (∀ p : Program, optimize p = constant_folding (dead_code_elimination p)) ∧
    ((lower stmtsAB).bind optimize).map Program.instructions =
      some [Instruction.Constant "a.1".data 2] ∧
    (((lower stmtsAB).bind optimize).bind optimize).map Program.instructions = some [] :=
  ⟨fun _ => rfl, rfl, rfl⟩

/-- C4, counterexample. Lowering an assignment whose right-hand side reads
the unbound variable `x` does not return an `UndefinedVariable` error
value: the source calls `.unwrap()` on the missing binding and panics
(modelled as `none`); no `LowerError` type exists in the code. -/
theorem c4_cex :
    lower [Statement.Assignment "y".data (Expr.Variable "x".data)] = none := rfl

/-- C4, amended: a statement sequence whose first statement reads a
variable with no live binding makes `lower` panic on the `.unwrap()` of
the missing map entry (modelled as `none`) — a process abort, not a
returned `UndefinedVariable` error and not a silent default. -/
theorem c4_amended (n x : Str) (t : Ty) (rest : List Statement) :
    lower (Statement.Let n t (Expr.Variable x) :: rest) = none := rfl

/-- C5: SSA uniqueness — whenever `lower` accepts a statement sequence (it
panics on unhandled statement forms and unbound reads), no two
instructions of the resulting IR share a result name: every result comes
from `gen_name`, whose per-base counter strictly increases. -/
theorem c5_thm (stmts : List Statement) (p : Program) (h : lower stmts = some p) :
    (p.instructions.map resOf).Nodup :=
  (lowerGo_inv stmts Program.new p
    ⟨fun i hi => absurd hi (List.not_mem_nil i), List.nodup_nil⟩ h).2

/-- Witness for C5 on the three-instruction example program. -/
theorem c5_wit :
    (((lower stmtsC1).getD Program.new).instructions.map resOf).Nodup :=
  c5_thm stmtsC1 ((lower stmtsC1).getD Program.new) rfl

/-- C6, counterexample. `1 + 2 * 3;` parses as the expression statement
`(1 + 2) * 3`, whose informal evaluation is `9`, not `7`: `parse_binary`
keeps `+ - * /` in one left-associative tier, so `*` does not bind tighter
than `+`. -/
theorem c6_cex :
    lex "1 + 2 * 3;".data = some (Except.ok toksPrec) ∧
    parse_statement 100 ⟨toksPrec, 0⟩ = PRes.ok (Statement.Expr exprPrec) ⟨toksPrec, 6⟩ ∧
    evalArith exprPrec = some 9 ∧
    evalArith exprPrec ≠ some 7 ∧
    exprPrec ≠
      Expr.Binary BinaryOp.Add (Expr.Integer 1)
        (Expr.Binary BinaryOp.Multiply (Expr.Integer 2) (Expr.Integer 3)) := by
  refine ⟨rfl, rfl, rfl, by decide, ?_⟩
  simp [exprPrec]

/-- C6, amended: parsing the expression statement `1 + 2 * 3;` yields the
left-associative tree `(1 + 2) * 3`, whose informal evaluation is `9`;
additive and multiplicative operators share one precedence tier. -/
theorem c6_amended :
    (match lex "1 + 2 * 3;".data with
      | some (Except.ok toks) => parse_statement 100 ⟨toks, 0⟩
      | _ => PRes.stuck) = PRes.ok (Statement.Expr exprPrec) ⟨toksPrec, 6⟩ ∧
    evalArith exprPrec = some 9 :=
  ⟨rfl, rfl⟩

/-- C7: the comparison grammar loops, so `a < b < c` parses with no
rejection as the left-associated chain `(a < b) < c`, the inner
(boolean-producing) comparison becoming the left operand of the outer
one — for arbitrary identifier names `a`, `b`, `c`. -/
theorem c7_thm (a b c : Str) :
    parse_expression 20 ⟨toksChain a b c, 0⟩ =
      PRes.ok
        (Expr.Comparison ComparisonOp.Less
          (Expr.Comparison ComparisonOp.Less (Expr.Variable a) (Expr.Variable b))
          (Expr.Variable c))
        ⟨toksChain a b c, 5⟩ := rfl

/-- C8: for every non-negative integer representable as a 64-bit signed
integer, lexing its decimal text succeeds with exactly one `Integer` token
carrying that value, followed only by the end-of-stream token. -/
theorem c8_thm (v : Nat) (h : v < 2 ^ 63) :
    lex (natChars v) = some (Except.ok [Token.Integer (v : Int), Token.Eof]) := by
  have hlex := lex_digits (natChars v) (natChars_ne_nil v) (natChars_all_digits v)
  rw [digitsToNat_natChars] at hlex
  rw [hlex, if_pos (show v ≤ I64MAX by unfold I64MAX; omega)]

/-- Witness for C8 at `v = 12345`. -/
theorem c8_wit :
    (12345 : Nat) < 2 ^ 63 ∧
    lex (natChars 12345) = some (Except.ok [Token.Integer (12345 : Int), Token.Eof]) :=
  ⟨by norm_num, c8_thm 12345 (by norm_num)⟩

/-- C9, counterexample. Lexing twenty nines (a digit run that does not fit
in an `i64`) fails with `InvalidInteger`, but the reported position is
`20` — the offset just past the digit run — not `0`, the offset at which
scanning of the run began, because the source increments `position` while
consuming each digit and only then reports the error. -/
theorem c9_cex :
    lex (List.replicate 20 '9') =
      some (Except.error ⟨invalidIntegerMsg (List.replicate 20 '9'), 20⟩) ∧
    (20 : Nat) ≠ 0 :=
  ⟨rfl, by decide⟩

/-- C9, amended: a maximal digit run that does not parse as a 64-bit signed
integer fails the lexer with an `InvalidInteger` error reporting the
offending digit text, but the position field is the character offset just
past the digit run (the offset where scanning began plus the run length),
not the offset where scanning began. Stated for inputs consisting of the
run itself, where scanning begins at offset `0`. -/
theorem c9_amended (ds : Str) (hne : ds ≠ []) (hd : ∀ c ∈ ds, isDigitC c = true)
    (hbig : 2 ^ 63 ≤ digitsToNat ds) :
    lex ds = some (Except.error ⟨invalidIntegerMsg ds, ds.length⟩) := by
  rw [lex_digits ds hne hd, if_neg (show ¬digitsToNat ds ≤ I64MAX by unfold I64MAX; omega)]

/-- Witness for the amended C9 at the twenty-nines run. -/
theorem c9_wit :
    (List.replicate 20 '9' ≠ ([] : Str)) ∧
    2 ^ 63 ≤ digitsToNat (List.replicate 20 '9') ∧
    lex (List.replicate 20 '9') =
      some (Except.error ⟨invalidIntegerMsg (List.replicate 20 '9'),
        (List.replicate 20 '9').length⟩) :=
  ⟨by decide, by decide, c9_amended (List.replicate 20 '9') (by decide) (by decide) (by decide)⟩

/-- C10: constant folding only rewrites instructions in place — whenever it
returns (it panics on a division fold by zero), the output has the same
instructions count, in the same order, with identical result names, and
the rest of the program (the `variables` map) untouched. -/
theorem c10_thm (p p' : Program) (h : constant_folding p = some p') :
    p'.instructions.map resOf = p.instructions.map resOf ∧
    p'.instructions.length = p.instructions.length ∧
    p'.vars = p.vars := by
  simp only [constant_folding, Option.map_eq_some'] at h
  obtain ⟨out, hloop, hp⟩ := h
  have hres := foldLoopAux_res (binCount p.instructions + 1) [] p.instructions out hloop
  subst hp
  refine ⟨hres, ?_, rfl⟩
  have := congrArg List.length hres
  simpa using this

/-- Witness for C10 on the lowered `a`/`b` chain, where the product does
fold. -/
theorem c10_wit :
    constant_folding ⟨[Instruction.Constant "a.1".data 2,
        Instruction.Binary "b.1".data BinaryOp.Multiply "a.1".data "3".data], []⟩ =
      some ⟨[Instruction.Constant "a.1".data 2, Instruction.Constant "b.1".data 6], []⟩ ∧
    ([Instruction.Constant "a.1".data 2, Instruction.Constant "b.1".data 6].map resOf =
      [Instruction.Constant "a.1".data 2,
        Instruction.Binary "b.1".data BinaryOp.Multiply "a.1".data "3".data].map resOf) :=
  ⟨rfl,
    (c10_thm
      ⟨[Instruction.Constant "a.1".data 2,
        Instruction.Binary "b.1".data BinaryOp.Multiply "a.1".data "3".data], []⟩
      ⟨[Instruction.Constant "a.1".data 2, Instruction.Constant "b.1".data 6], []⟩ rfl).1⟩

end Crucible
